import Mathlib

/-!
Verification development for the remote status indicator
(src/vs/workbench/contrib/remote/browser/remoteIndicator.ts).

The stateful TypeScript class is shallowly embedded: mutable fields become
explicit state records, event listeners become functions from state and
event to state, and the quick-pick construction becomes a pure function
from its inputs to the produced entry list.
-/

set_option linter.unusedVariables false

namespace RemoteStatusIndicator

/-- The values of the connectionState field of the source class
(the field may also be undefined, modelled as an Option around this type). -/
inductive ConnState where
  | initializing
  | connected
  | reconnecting
  | disconnected
deriving DecidableEq, Repr

/-- The literal string of each connectionState value, as assigned to the
remoteConnectionState context key. -/
def stateString : ConnState → String
  | .initializing => "initializing"
  | .connected => "connected"
  | .reconnecting => "reconnecting"
  | .disconnected => "disconnected"

/-- State of the connection state machine: the connectionState field together
with the string most recently published to the remoteConnectionState context
key (a RawContextKey created with default value the empty string). -/
structure MachineState where
  connectionState : Option ConnState
  contextKey : String
deriving DecidableEq, Repr

/-- setState from the source (lines 320 to 333): a no-op when the new state
equals the current one; otherwise it stores the new state and publishes it to
the context key, collapsing reconnecting to disconnected because the context
key type does not carry a reconnecting value. -/
def setState (st : MachineState) (newState : ConnState) : MachineState :=
  if st.connectionState = some newState then st
  else
    { connectionState := some newState,
      contextKey := if newState = .reconnecting then "disconnected" else stateString newState }

/-- The coarse projection of the internal state that the context key is
specified to hold: empty when no state is set, the state string otherwise,
with reconnecting presented as disconnected. -/
def coarseKey : Option ConnState → String
  | none => ""
  | some s => if s = .reconnecting then "disconnected" else stateString s

/-- Events that drive the state machine: the five lifecycle events of the
connection channel (listener at lines 271 to 285) and the two outcomes of
the one-shot asynchronous resolution attempt (lines 306 to 314). -/
inductive REvent where
  | connectionLost
  | reconnectionRunning
  | reconnectionWait
  | reconnectionPermanentFailure
  | connectionGain
  | resolutionSucceeded
  | resolutionFailed
deriving DecidableEq, Repr

/-- The state each event passes to setState, per the switch in the listener
and the resolution continuation of the source. -/
def REvent.target : REvent → ConnState
  | .connectionLost => .reconnecting
  | .reconnectionRunning => .reconnecting
  | .reconnectionWait => .reconnecting
  | .reconnectionPermanentFailure => .disconnected
  | .connectionGain => .connected
  | .resolutionSucceeded => .connected
  | .resolutionFailed => .disconnected

/-- Delivering one event to the machine. -/
def applyEvent (st : MachineState) (e : REvent) : MachineState := setState st e.target

/-- Initial machine state from the constructor (lines 96 to 102): with a
remote authority the state starts at initializing and the context key is set
accordingly; otherwise the state stays undefined and the key keeps its
default empty value. -/
def initialState (hasRemoteAuthority : Bool) : MachineState :=
  if hasRemoteAuthority then
    { connectionState := some .initializing, contextKey := "initializing" }
  else
    { connectionState := none, contextKey := "" }

/-- Delivering a sequence of events in arrival order. -/
def runEvents : MachineState → List REvent → MachineState
  | st, [] => st
  | st, e :: evs => runEvents (applyEvent st e) evs

theorem setState_connectionState (st : MachineState) (n : ConnState) :
    (setState st n).connectionState = some n := by
  unfold setState
  by_cases h : st.connectionState = some n <;> simp [h]

/-- The published context key always equals the coarse projection of the
internal state. -/
def KeyInv (st : MachineState) : Prop := st.contextKey = coarseKey st.connectionState

theorem keyInv_setState (st : MachineState) (n : ConnState) (h : KeyInv st) :
    KeyInv (setState st n) := by
  unfold KeyInv setState at *
  by_cases he : st.connectionState = some n
  · simpa [he] using h
  · simp [he, coarseKey]

theorem keyInv_runEvents (evs : List REvent) (st : MachineState) (h : KeyInv st) :
    KeyInv (runEvents st evs) := by
  induction evs generalizing st with
  | nil => exact h
  | cons e evs ih => exact ih _ (keyInv_setState st e.target h)

theorem coarseKey_ne_reconnecting (o : Option ConnState) : coarseKey o ≠ "reconnecting" := by
  rcases o with _ | s
  · decide
  · cases s <;> decide

theorem runEvents_append (st : MachineState) (l1 l2 : List REvent) :
    runEvents st (l1 ++ l2) = runEvents (runEvents st l1) l2 := by
  induction l1 generalizing st with
  | nil => rfl
  | cons e l1 ih => simpa [runEvents] using ih (applyEvent st e)

/-- C4: for every sequence of lifecycle events and resolution outcomes the
published connection-state context key never holds the value reconnecting,
and it always equals the coarse projection of the internal state: empty
without an authority and before any event, the state string otherwise, with
reconnecting collapsed to disconnected. -/
theorem context_key_is_coarse_projection (hasRemoteAuthority : Bool) (evs : List REvent) :
    (runEvents (initialState hasRemoteAuthority) evs).contextKey ≠ "reconnecting" ∧
    (runEvents (initialState hasRemoteAuthority) evs).contextKey
      = coarseKey (runEvents (initialState hasRemoteAuthority) evs).connectionState := by
  have hinit : KeyInv (initialState hasRemoteAuthority) := by
    cases hasRemoteAuthority <;> simp [KeyInv, initialState, coarseKey, stateString]
  have h := keyInv_runEvents evs _ hinit
  refine ⟨?_, h⟩
  rw [h]
  exact coarseKey_ne_reconnecting _

/-- C3 counterexample: starting at initializing, delivering ConnectionGain and
then the failure outcome of the delayed resolution attempt leaves the state
at disconnected, not at connected as the claim asserts: the resolution
continuation calls setState unconditionally, so the write arriving last wins. -/
theorem gain_then_late_resolution_failure_disconnects :
    (runEvents (initialState true) [REvent.connectionGain, REvent.resolutionFailed]).connectionState
        = some ConnState.disconnected ∧
    (runEvents (initialState true) [REvent.connectionGain, REvent.resolutionFailed]).connectionState
        ≠ some ConnState.connected := by
  decide

/-- C3 (amended): the event arriving last always determines the final state:
after any event sequence ending in event e the state is the target of e. In
particular ConnectionGain followed by a late resolution failure ends at
disconnected, and resolution success followed by a later
ReconnectionPermanentFailure also ends at disconnected. -/
theorem final_state_is_last_event_target :
    (∀ (evs : List REvent) (e : REvent),
      (runEvents (initialState true) (evs ++ [e])).connectionState = some e.target) ∧
    (runEvents (initialState true) [REvent.connectionGain, REvent.resolutionFailed]).connectionState
        = some ConnState.disconnected ∧
    (runEvents (initialState true)
        [REvent.resolutionSucceeded, REvent.reconnectionPermanentFailure]).connectionState
        = some ConnState.disconnected := by
  refine ⟨?_, by decide, by decide⟩
  intro evs e
  rw [runEvents_append]
  exact setState_connectionState _ _

/-- Lower-case ASCII letter: the character class of the validation regex
written as a to z. -/
def isLowerAZ (c : Char) : Bool := 'a' ≤ c && c ≤ 'z'

/-- The scheme-name character class of the validation regex: lower-case
letters, ASCII digits, plus, dot and hyphen. -/
def inSchemeClass (c : Char) : Bool :=
  isLowerAZ c || c.isDigit || c = '+' || c = '.' || c = '-'

/-- The dot of a JavaScript regex without the dotAll flag: any character
except the four line terminators. -/
def jsDot (c : Char) : Bool :=
  !(c = '\n' || c = '\r' || c = '\u2028' || c = '\u2029')

/-- Matches the tail of the validation regex, a scheme-class star followed
by an underscore and a dot star reaching the end of the input: at each
position the underscore either starts here with the remaining characters
matching the dot star, or the character is in the scheme class and matching
continues. -/
def schemeRest : List Char → Bool
  | [] => false
  | c :: rest => (c = '_' && rest.all jsDot) || (inSchemeClass c && schemeRest rest)

/-- Matches what follows the tier and its underscore in the validation
regex: two digits, an underscore, a lower-case letter, then schemeRest. -/
def afterTier : List Char → Bool
  | d1 :: d2 :: u :: c :: rest =>
    d1.isDigit && d2.isDigit && u = '_' && isLowerAZ c && schemeRest rest
  | _ => false

/-- Removes the literal p from the front of cs, when present. -/
def stripPref : List Char → List Char → Option (List Char)
  | [], cs => some cs
  | _ :: _, [] => none
  | p :: ps, c :: cs => if c = p then stripPref ps cs else none

/-- One alternative of the anchored validation regex: the tier literal
including its trailing underscore, then afterTier. -/
def matchFromTier (tierUnd : List Char) (s : String) : Bool :=
  match stripPref tierUnd s.data with
  | some rest => afterTier rest
  | none => false

/-- The regex test of validatedGroup (line 336): the key matches
remote or virtualfs, an underscore, two digits, an underscore, a scheme
name headed by a lower-case letter, an underscore, and any trailing tag
characters up to the end of the string. -/
def validatedGroupMatch (s : String) : Bool :=
  matchFromTier "remote_".data s || matchFromTier "virtualfs_".data s

/-- Declarative shape of a group key: a tier, two order digits, a scheme
name headed by a lower-case letter, and a grouping tag. With allowEmptyTag
true this is the shape of the source regex, whose tag part is a dot star;
with allowEmptyTag false it is the pattern written in the specification,
whose tag part is a dot plus and hence nonempty. -/
def KeyShape (allowEmptyTag : Bool) (s : String) : Prop :=
  ∃ (tier : String) (d1 d2 h : Char) (nm tag : List Char),
    (tier = "remote" ∨ tier = "virtualfs") ∧
    d1.isDigit = true ∧ d2.isDigit = true ∧ isLowerAZ h = true ∧
    (∀ c ∈ nm, inSchemeClass c = true) ∧
    (∀ c ∈ tag, jsDot c = true) ∧
    (allowEmptyTag = true ∨ tag ≠ []) ∧
    s.data = tier.data ++ '_' :: d1 :: d2 :: '_' :: h :: (nm ++ '_' :: tag)

theorem stripPref_eq_some (ps : List Char) :
    ∀ (cs rest : List Char), stripPref ps cs = some rest ↔ cs = ps ++ rest := by
  induction ps with
  | nil => intro cs rest; simp [stripPref]
  | cons p ps ih =>
    intro cs rest
    cases cs with
    | nil => simp [stripPref]
    | cons c cs =>
      by_cases h : c = p
      · subst h; simp [stripPref, ih]
      · simp [stripPref, h, Ne.symm h]

theorem schemeRest_iff (cs : List Char) :
    schemeRest cs = true ↔
      ∃ nm tag, cs = nm ++ '_' :: tag ∧ (∀ c ∈ nm, inSchemeClass c = true) ∧
        (∀ c ∈ tag, jsDot c = true) := by
  induction cs with
  | nil =>
    constructor
    · intro h; simp [schemeRest] at h
    · rintro ⟨nm, tag, h, -, -⟩; cases nm <;> simp at h
  | cons c rest ih =>
    constructor
    · intro h
      simp only [schemeRest, Bool.or_eq_true, Bool.and_eq_true, decide_eq_true_eq] at h
      rcases h with ⟨hc, hall⟩ | ⟨hc, hrest⟩
      · subst hc
        exact ⟨[], rest, rfl, by simp, by simpa [List.all_eq_true] using hall⟩
      · obtain ⟨nm, tag, hcs, hnm, htag⟩ := ih.mp hrest
        refine ⟨c :: nm, tag, by simp [hcs], ?_, htag⟩
        intro x hx
        rcases List.mem_cons.mp hx with rfl | hx
        · exact hc
        · exact hnm x hx
    · rintro ⟨nm, tag, hcs, hnm, htag⟩
      cases nm with
      | nil =>
        simp only [List.nil_append, List.cons.injEq] at hcs
        obtain ⟨rfl, rfl⟩ := hcs
        simp only [schemeRest, Bool.or_eq_true, Bool.and_eq_true, decide_eq_true_eq,
          List.all_eq_true]
        exact Or.inl ⟨trivial, htag⟩
      | cons n ns =>
        simp only [List.cons_append, List.cons.injEq] at hcs
        obtain ⟨rfl, rfl⟩ := hcs
        have h1 : inSchemeClass c = true := hnm c (by simp)
        have h2 : schemeRest (ns ++ '_' :: tag) = true :=
          ih.mpr ⟨ns, tag, rfl, fun x hx => hnm x (by simp [hx]), htag⟩
        simp [schemeRest, h1, h2]

theorem afterTier_iff (cs : List Char) :
    afterTier cs = true ↔
      ∃ d1 d2 h rest, cs = d1 :: d2 :: '_' :: h :: rest ∧ d1.isDigit = true ∧
        d2.isDigit = true ∧ isLowerAZ h = true ∧ schemeRest rest = true := by
  constructor
  · intro hm
    rcases cs with _ | ⟨d1, _ | ⟨d2, _ | ⟨u, _ | ⟨c, rest⟩⟩⟩⟩ <;>
      simp only [afterTier] at hm
    · cases hm
    · cases hm
    · cases hm
    · cases hm
    · simp only [Bool.and_eq_true, decide_eq_true_eq] at hm
      obtain ⟨⟨⟨⟨h1, h2⟩, hu⟩, hc⟩, hr⟩ := hm
      subst hu
      exact ⟨d1, d2, c, rest, rfl, h1, h2, hc, hr⟩
  · rintro ⟨d1, d2, h, rest, rfl, h1, h2, hc, hr⟩
    simp [afterTier, h1, h2, hc, hr]

theorem matchFromTier_iff (p : List Char) (s : String) :
    matchFromTier p s = true ↔ ∃ rest, s.data = p ++ rest ∧ afterTier rest = true := by
  unfold matchFromTier
  rcases hst : stripPref p s.data with _ | rest
  · simp only [hst]
    constructor
    · intro h; cases h
    · rintro ⟨rest, hr, ha⟩
      have h2 := (stripPref_eq_some p s.data rest).mpr hr
      rw [hst] at h2; cases h2
  · simp only [hst]
    constructor
    · intro ha; exact ⟨rest, (stripPref_eq_some p s.data rest).mp hst, ha⟩
    · rintro ⟨rest', hr, ha⟩
      have h2 := (stripPref_eq_some p s.data rest').mpr hr
      rw [hst] at h2
      injection h2 with h2
      rw [h2]; exact ha

theorem tier_data_under (t : String) (x : List Char) (h : (t ++ "_").data = t.data ++ ['_']) :
    (t ++ "_").data ++ x = t.data ++ '_' :: x := by
  rw [h]; simp

theorem validatedGroupMatch_iff (s : String) :
    validatedGroupMatch s = true ↔ KeyShape true s := by
  have hre : "remote_".data = "remote".data ++ ['_'] := by decide
  have hvf : "virtualfs_".data = "virtualfs".data ++ ['_'] := by decide
  constructor
  · intro h
    rcases Bool.or_eq_true _ _ |>.mp h with h | h
    all_goals
      obtain ⟨rest, hdata, hat⟩ := (matchFromTier_iff _ s).mp h
      obtain ⟨d1, d2, hh, rest', rfl, h1, h2, hc, hr⟩ := (afterTier_iff rest).mp hat
      obtain ⟨nm, tag, rfl, hnm, htag⟩ := (schemeRest_iff rest').mp hr
    · exact ⟨"remote", d1, d2, hh, nm, tag, Or.inl rfl, h1, h2, hc, hnm, htag,
        Or.inl rfl, by rw [hdata, hre]; simp⟩
    · exact ⟨"virtualfs", d1, d2, hh, nm, tag, Or.inr rfl, h1, h2, hc, hnm, htag,
        Or.inl rfl, by rw [hdata, hvf]; simp⟩
  · rintro ⟨tier, d1, d2, hh, nm, tag, htier, h1, h2, hc, hnm, htag, -, hdata⟩
    have hat : afterTier (d1 :: d2 :: '_' :: hh :: (nm ++ '_' :: tag)) = true :=
      (afterTier_iff _).mpr ⟨d1, d2, hh, nm ++ '_' :: tag, rfl, h1, h2, hc,
        (schemeRest_iff _).mpr ⟨nm, tag, rfl, hnm, htag⟩⟩
    rcases htier with rfl | rfl
    · exact Bool.or_eq_true _ _ |>.mpr (Or.inl ((matchFromTier_iff _ s).mpr
        ⟨_, by rw [hdata, hre]; simp, hat⟩))
    · exact Bool.or_eq_true _ _ |>.mpr (Or.inr ((matchFromTier_iff _ s).mpr
        ⟨_, by rw [hdata, hvf]; simp, hat⟩))

/-- C5 counterexample: the key remote_00_a_ with an empty grouping tag is
accepted by the validator of the source, whose regex ends in a dot star,
but does not match the pattern written in the specification, whose final
dot plus requires a nonempty tag. -/
theorem validator_accepts_empty_tag :
    validatedGroupMatch "remote_00_a_" = true ∧ ¬ KeyShape false "remote_00_a_" := by
  refine ⟨by decide, ?_⟩
  rintro ⟨tier, d1, d2, h, nm, tag, htier, -, -, -, -, -, htag, hdata⟩
  rcases htag with h0 | hne
  · cases h0
  have hlen := congrArg List.length hdata
  have hL : ("remote_00_a_".data).length = 12 := by decide
  rw [hL] at hlen
  simp only [List.length_append, List.length_cons] at hlen
  rcases htier with rfl | rfl
  · have ht : ("remote".data).length = 6 := by decide
    rw [ht] at hlen
    have : tag.length = 0 := by omega
    exact hne (List.length_eq_zero.mp this)
  · have ht : ("virtualfs".data).length = 9 := by decide
    rw [ht] at hlen
    omega

/-- C5 (amended): the validator accepts exactly the keys of the shape
remote or virtualfs, an underscore, two digits, an underscore, a scheme
name headed by a lower-case letter, an underscore and a possibly empty
grouping tag (the source regex ends in a dot star, not the dot plus of the
specification pattern); in particular the four documented examples behave
as stated. -/
theorem validator_matches_key_shape :
    (∀ s : String, validatedGroupMatch s = true ↔ KeyShape true s) ∧
    validatedGroupMatch "remote_00_ssh_auth" = true ∧
    validatedGroupMatch "virtualfs_12_github_browse" = true ∧
    validatedGroupMatch "foo_00_bar_baz" = false ∧
    validatedGroupMatch "remote_1_ssh_x" = false :=
  ⟨validatedGroupMatch_iff, by decide, by decide, by decide, by decide⟩

/-- The loggedInvalidGroupNames dictionary (line 76), as the list of keys
that have been marked true. -/
abbrev LogSet := List String

/-- validatedGroup from the source (lines 335 to 344): returns whether the
group key matches the regex; on a failed match it records the key in the
dictionary and emits one warning naming the key, unless the key was already
recorded. Result: the returned boolean, the updated dictionary, and the
warnings emitted by this call, identified by the offending key. -/
def validatedGroup (logged : LogSet) (group : String) : Bool × LogSet × List String :=
  if validatedGroupMatch group then (true, logged, [])
  else if group ∈ logged then (false, logged, [])
  else (false, group :: logged, [group])

/-- A sequence of validation calls threading the dictionary, collecting all
emitted warnings in order. -/
def runValidations : LogSet → List String → LogSet × List String
  | logged, [] => (logged, [])
  | logged, g :: gs =>
    let r := validatedGroup logged g
    let rest := runValidations r.2.1 gs
    (rest.1, r.2.2 ++ rest.2)

theorem runValidations_cons (logged : LogSet) (g : String) (gs : List String) :
    runValidations logged (g :: gs)
      = ((runValidations (validatedGroup logged g).2.1 gs).1,
         (validatedGroup logged g).2.2 ++ (runValidations (validatedGroup logged g).2.1 gs).2) :=
  rfl

theorem runValidations_warnings (gs : List String) :
    ∀ (logged : LogSet) (k : String),
      ((runValidations logged gs).2.count k ≤ if k ∈ logged then 0 else 1) ∧
      (k ∈ (runValidations logged gs).2 → validatedGroupMatch k = false ∧ k ∉ logged) := by
  induction gs with
  | nil =>
    intro logged k
    refine ⟨?_, by simp [runValidations]⟩
    by_cases h : k ∈ logged <;> simp [runValidations, h]
  | cons g gs ih =>
    intro logged k
    rw [runValidations_cons]
    by_cases hm : validatedGroupMatch g
    · have hv : validatedGroup logged g = (true, logged, []) := by
        simp [validatedGroup, hm]
      rw [hv]
      simpa using ih logged k
    · by_cases hin : g ∈ logged
      · have hv : validatedGroup logged g = (false, logged, []) := by
          simp [validatedGroup, hm, hin]
        rw [hv]
        simpa using ih logged k
      · have hv : validatedGroup logged g = (false, g :: logged, [g]) := by
          simp [validatedGroup, hm, hin]
        rw [hv]
        constructor
        · rcases eq_or_ne k g with rfl | hne
          · have h2 := (ih (k :: logged) k).1
            rw [if_pos (List.mem_cons_self k logged)] at h2
            have h0 : List.count k (runValidations (k :: logged) gs).2 = 0 :=
              Nat.le_zero.mp h2
            rw [if_neg hin]
            simp [List.count_cons, h0]
          · have h2 := (ih (g :: logged) k).1
            have hgk : ¬ g = k := fun h => hne h.symm
            simp only [List.singleton_append, List.count_cons, beq_iff_eq, if_neg hgk,
              Nat.add_zero]
            by_cases hkl : k ∈ logged
            · rw [if_pos (List.mem_cons_of_mem g hkl)] at h2
              rw [if_pos hkl]
              simpa using h2
            · rw [if_neg (fun h => by
                rcases List.mem_cons.mp h with h | h
                exacts [hne h, hkl h])] at h2
              rw [if_neg hkl]
              simpa using h2
        · intro hk
          rcases List.mem_append.mp hk with hk | hk
          · have hkg : k = g := by simpa using hk
            subst hkg
            exact ⟨by simpa using hm, hin⟩
          · have h3 := (ih (g :: logged) k).2 hk
            exact ⟨h3.1, fun hmem => h3.2 (List.mem_cons_of_mem g hmem)⟩

/-- C6: starting from an empty dictionary, over any sequence of validation
calls each distinct key is named in at most one warning, and every warned
key is one the validator rejects: no warning is ever emitted for an
accepted key, however often a key is re-validated. -/
theorem invalid_key_logged_at_most_once (gs : List String) (k : String) :
    ((runValidations [] gs).2.count k ≤ 1) ∧
    (k ∈ (runValidations [] gs).2 → validatedGroupMatch k = false) := by
  have h := runValidations_warnings gs [] k
  refine ⟨by simpa using h.1, fun hk => (h.2 hk).1⟩

/-- Witness for C6 at a concrete run: validating the same invalid key twice
warns at most once, and the key is indeed rejected. -/
theorem invalid_key_logged_at_most_once_witness :
    ((runValidations [] ["foo_00_bar_baz", "foo_00_bar_baz"]).2.count "foo_00_bar_baz" ≤ 1) ∧
    validatedGroupMatch "foo_00_bar_baz" = false :=
  ⟨(invalid_key_logged_at_most_once ["foo_00_bar_baz", "foo_00_bar_baz"] "foo_00_bar_baz").1,
   (invalid_key_logged_at_most_once ["foo_00_bar_baz", "foo_00_bar_baz"] "foo_00_bar_baz").2
     (by decide)⟩

/-- A contributed menu action: a plain menu item action with id, title and
optional category, or a submenu item action. -/
inductive RMenuAction where
  | menuItem (id : String) (title : String) (category : Option String)
  | submenuItem (id : String)
deriving DecidableEq, Repr

/-- An action group (source type ActionGroup, line 44): the group key paired
with the actions of the group. -/
abbrev ActionGroup := String × List RMenuAction

/-- The mutable fields of the class involved in menu aggregation: the cache
field remoteMenuActionsGroups and the loggedInvalidGroupNames dictionary. -/
structure MenuAggState where
  remoteMenuActionsGroups : Option (List ActionGroup)
  logged : LogSet
deriving DecidableEq, Repr

/-- The filter of the current-tier groups in getRemoteMenuActions: filter
with the side-effecting predicate validatedGroup, evaluated left to right,
threading the logging dictionary. -/
def filterValidated (logged : LogSet) : List ActionGroup → List ActionGroup × LogSet
  | [] => ([], logged)
  | a :: as =>
    let r := validatedGroup logged a.1
    let rest := filterValidated r.2.1 as
    (if r.1 then a :: rest.1 else rest.1, rest.2)

/-- getRemoteMenuActions from the source (lines 346 to 351): returns the
cached groups unless the cache is unset or doNotUseCache is passed; on a
rebuild it takes the current-tier groups that pass validation followed by
all legacy-tier groups unvalidated, stores the result in the cache and
returns it. -/
def getRemoteMenuActions (current legacy : List ActionGroup) (doNotUseCache : Bool)
    (st : MenuAggState) : List ActionGroup × MenuAggState :=
  match st.remoteMenuActionsGroups, doNotUseCache with
  | some cached, false => (cached, st)
  | _, _ =>
    let r := filterValidated st.logged current
    let groups := r.1 ++ legacy
    (groups, { remoteMenuActionsGroups := some groups, logged := r.2 })

theorem filterValidated_fst (current : List ActionGroup) :
    ∀ logged, (filterValidated logged current).1
      = current.filter (fun g => validatedGroupMatch g.1) := by
  induction current with
  | nil => intro logged; rfl
  | cons a as ih =>
    intro logged
    show (let r := validatedGroup logged a.1
          let rest := filterValidated r.2.1 as
          ((if r.1 then a :: rest.1 else rest.1, rest.2) : List ActionGroup × LogSet)).1 = _
    unfold validatedGroup
    by_cases hm : validatedGroupMatch a.1
    · simp [hm, List.filter_cons, ih]
    · by_cases hin : a.1 ∈ logged <;> simp [hm, hin, List.filter_cons, ih]

/-- C7: getRemoteMenuActions returns the cached sequence unchanged when the
cache is set and no refresh is forced, two consecutive unforced calls return
the identical sequence, and whenever the cache is unset or a refresh is
forced the returned and cached sequence is exactly the current-tier groups
passing key validation in source order followed by all legacy-tier groups
unvalidated in source order. -/
theorem remote_menu_actions_cache :
    (∀ (current legacy : List ActionGroup) (st : MenuAggState) (c : List ActionGroup),
      st.remoteMenuActionsGroups = some c →
      getRemoteMenuActions current legacy false st = (c, st)) ∧
    (∀ (current legacy : List ActionGroup) (st : MenuAggState) (force : Bool),
      st.remoteMenuActionsGroups = none ∨ force = true →
      (getRemoteMenuActions current legacy force st).1
          = current.filter (fun g => validatedGroupMatch g.1) ++ legacy ∧
      (getRemoteMenuActions current legacy force st).2.remoteMenuActionsGroups
          = some (current.filter (fun g => validatedGroupMatch g.1) ++ legacy)) ∧
    (∀ (current legacy : List ActionGroup) (st : MenuAggState),
      (getRemoteMenuActions current legacy false
          ((getRemoteMenuActions current legacy false st).2)).1
        = (getRemoteMenuActions current legacy false st).1) := by
  refine ⟨?_, ?_, ?_⟩
  · rintro current legacy ⟨cache, logged⟩ c hc
    have : cache = some c := hc
    subst this
    rfl
  · rintro current legacy ⟨cache, logged⟩ force h
    rcases h with h | rfl
    · have : cache = none := h
      subst this
      exact ⟨by simp [getRemoteMenuActions, filterValidated_fst],
             by simp [getRemoteMenuActions, filterValidated_fst]⟩
    · rcases cache with _ | c <;>
        exact ⟨by simp [getRemoteMenuActions, filterValidated_fst],
               by simp [getRemoteMenuActions, filterValidated_fst]⟩
  · rintro current legacy ⟨cache, logged⟩
    rcases cache with _ | c
    · simp [getRemoteMenuActions]
    · rfl

/-- Witness for C7 at a concrete state: with a set cache and no forced
refresh the call returns the cached value and leaves the state unchanged. -/
theorem remote_menu_actions_cache_witness :
    getRemoteMenuActions [] [] false
        { remoteMenuActionsGroups := some [], logged := [] }
      = ([], { remoteMenuActionsGroups := some [], logged := [] }) :=
  remote_menu_actions_cache.1 [] [] _ [] rfl

/-- Modelled from the spec: truncation of display text to a fixed maximum
display length with the trailing ellipsis convention (the truncate helper of
the base string utilities, which lives outside src). A string of at most
maxLength characters is unchanged; a longer one is cut to maxLength
characters and an ellipsis is appended. -/
def truncate (value : String) (maxLength : Nat) : String :=
  if value.length ≤ maxLength then value else value.take maxLength ++ "…"

/-- The fixed maximum display length of the indicator (line 53). -/
def REMOTE_STATUS_LABEL_MAX_LENGTH : Nat := 40

/-- The window indicator record, reduced to the fields the source reads. -/
structure WindowIndicator where
  label : String
  tooltip : String
  command : String
deriving DecidableEq, Repr

/-- The windowIndicator field of the source (lines 57 to 62): initialized to
a fixed record and never reassigned anywhere in the class. The Option
reflects the truthiness check the renderer performs on the field. -/
def windowIndicator : Option WindowIndicator :=
  some { label := "$(remote) k0s: boring_wozniak",
         tooltip := "Running in boring_wozniak",
         command := "workbench.action.remote.showMenu" }

/-- Inputs read by updateRemoteStatusIndicator besides the constant
windowIndicator: authority and connection state, the virtual workspace
location, the label service lookups (the empty string standing for a
missing label or tooltip, matching the truthiness tests of the source), and
the aggregated menu groups consulted by the fallback branch. -/
structure IndicatorEnv where
  remoteAuthority : Option String
  connectionState : Option ConnState
  virtualWorkspaceLocation : Option (String × String)
  getHostLabel : String → String → String
  getHostTooltip : String → String → String
  remoteMenuGroups : List ActionGroup

/-- The rendering decision of one run of updateRemoteStatusIndicator, one
constructor per branch of the source, carrying the text and tooltip each
branch passes to renderRemoteStatusIndicator (markdown tooltips flattened
to strings); hide is the final branch, which disposes the status entry
instead of rendering. -/
inductive IndicatorOutcome where
  | renderOverride (text : String) (tooltip : String) (command : String)
  | renderRemote (text : String) (tooltip : Option String) (showProgress : Bool)
  | renderVirtualWorkspace (text : String) (tooltip : String)
  | renderMenuAffordance (text : String) (tooltip : String)
  | hide
deriving DecidableEq, Repr

/-- The falsy-or of a label service result and its fallback. -/
def orFallback (label fallback : String) : String := if label = "" then fallback else label

/-- Modelled from the spec: the localized disconnected-from message with the
placeholder substituted by the truncated host label, prefixed by the alert
icon as in the source (line 376). -/
def disconnectedBranchText (hostLabel : String) : String :=
  "$(alert) Disconnected from " ++ truncate hostLabel REMOTE_STATUS_LABEL_MAX_LENGTH

/-- Modelled from the spec: the localized reconnecting message with the
placeholder substituted by the truncated host label (line 373). -/
def reconnectingBranchText (hostLabel : String) : String :=
  "Reconnecting to " ++ truncate hostLabel REMOTE_STATUS_LABEL_MAX_LENGTH ++ "..."

/-- The fixed informational note appended to virtual workspace tooltips
outside pure web, flattened to plain text. -/
def virtualWorkspaceNote : String :=
  "\n\nSome features are not available for resources located on a virtual file system."

/-- The last two branches: the menu affordance when the aggregated menu has
at least one group, the disposed indicator otherwise. -/
def menuOrHide (env : IndicatorEnv) : IndicatorOutcome :=
  if 0 < env.remoteMenuGroups.length then
    .renderMenuAffordance "$(remote)" "Open a Remote Window"
  else .hide

/-- updateRemoteStatusIndicator from the source (lines 353 to 424), with
isWeb fixed to false as in the source (line 42): the windowIndicator
override branch comes first and returns; then the connection-state branch
for a remote authority; then the virtual-workspace branch, falling through
when the workspace label is missing; then the menu affordance; otherwise
the status entry is disposed. -/
def updateRemoteStatusIndicator (env : IndicatorEnv) : IndicatorOutcome :=
  match windowIndicator with
  | some ri =>
    match env.remoteAuthority with
    | some _ =>
      .renderOverride (truncate ri.label REMOTE_STATUS_LABEL_MAX_LENGTH) ri.tooltip ri.command
    | none => .renderOverride "$(remote)" ri.tooltip ri.command
  | none =>
    match env.remoteAuthority with
    | some authority =>
      let hostLabel := orFallback (env.getHostLabel "vscode-remote" authority) authority
      match env.connectionState with
      | some .initializing => .renderRemote "Opening Remote..." (some "Opening Remote...") true
      | some .reconnecting => .renderRemote (reconnectingBranchText hostLabel) none true
      | some .disconnected => .renderRemote (disconnectedBranchText hostLabel) none false
      | _ =>
        let tooltip := orFallback (env.getHostTooltip "vscode-remote" authority)
          ("Editing on " ++ hostLabel)
        .renderRemote ("$(remote) " ++ truncate hostLabel REMOTE_STATUS_LABEL_MAX_LENGTH)
          (some tooltip) false
    | none =>
      match env.virtualWorkspaceLocation with
      | some vwl =>
        let workspaceLabel := env.getHostLabel vwl.1 vwl.2
        if workspaceLabel = "" then menuOrHide env
        else
          let base := orFallback (env.getHostTooltip vwl.1 vwl.2)
            ("Editing on " ++ workspaceLabel)
          .renderVirtualWorkspace
            ("$(remote) " ++ truncate workspaceLabel REMOTE_STATUS_LABEL_MAX_LENGTH)
            (base ++ virtualWorkspaceNote)
      | none => menuOrHide env

/-- The text an outcome renders, none when the indicator is hidden. -/
def IndicatorOutcome.text : IndicatorOutcome → Option String
  | .renderOverride t _ _ => some t
  | .renderRemote t _ _ => some t
  | .renderVirtualWorkspace t _ => some t
  | .renderMenuAffordance t _ => some t
  | .hide => none

/-- C2: the windowIndicator field is a fixed defined record that is never
reassigned, so every run of updateRemoteStatusIndicator takes the override
branch: with a remote authority it renders the override label truncated to
the 40 character maximum, otherwise the bare remote icon, always with the
override tooltip and command; consequently the connection-state branch, the
virtual-workspace branch, the menu affordance branch and the hide branch
that disposes the status entry are never taken. -/
theorem override_branch_always_wins (env : IndicatorEnv) :
    updateRemoteStatusIndicator env
      = .renderOverride
          (if env.remoteAuthority.isSome then
            truncate "$(remote) k0s: boring_wozniak" REMOTE_STATUS_LABEL_MAX_LENGTH
           else "$(remote)")
          "Running in boring_wozniak" "workbench.action.remote.showMenu" := by
  unfold updateRemoteStatusIndicator windowIndicator
  cases henv : env.remoteAuthority <;> simp

/-- A concrete environment with authority myhost, state disconnected, no
virtual workspace, no host labels, and no menu contributions. -/
def envMyhostDisconnected : IndicatorEnv :=
  { remoteAuthority := some "myhost",
    connectionState := some .disconnected,
    virtualWorkspaceLocation := none,
    getHostLabel := fun _ _ => "",
    getHostTooltip := fun _ _ => "",
    remoteMenuGroups := [] }

/-- C1 counterexample: with remote authority myhost, a non-web environment
and connection state disconnected, the rendered text is the label of the
fixed window-indicator override, which differs from the disconnected-from
message applied to the host label myhost: the override branch takes
priority, so the claimed text never appears. -/
theorem disconnected_text_is_override_not_pattern :
    (updateRemoteStatusIndicator envMyhostDisconnected).text
        = some "$(remote) k0s: boring_wozniak" ∧
    "$(remote) k0s: boring_wozniak" ≠ disconnectedBranchText "myhost" ∧
    "$(remote) k0s: boring_wozniak" ≠ "Disconnected from myhost" :=
  ⟨by decide, by decide, by decide⟩

/-- C1 (amended): whenever the remote authority myhost is configured and
the connection state is disconnected, the rendered indicator text is the
fixed window-indicator override label truncated to the 40 character maximum
display length: the hard-coded override takes priority over the
connection-state messages. -/
theorem disconnected_renders_override_label (env : IndicatorEnv)
    (ha : env.remoteAuthority = some "myhost")
    (hs : env.connectionState = some ConnState.disconnected) :
    (updateRemoteStatusIndicator env).text
      = some (truncate "$(remote) k0s: boring_wozniak" REMOTE_STATUS_LABEL_MAX_LENGTH) := by
  unfold updateRemoteStatusIndicator windowIndicator
  rw [ha]
  rfl

/-- Witness for C1 (amended) at the concrete environment. -/
theorem disconnected_renders_override_label_witness :
    (updateRemoteStatusIndicator envMyhostDisconnected).text
      = some (truncate "$(remote) k0s: boring_wozniak" REMOTE_STATUS_LABEL_MAX_LENGTH) :=
  disconnected_renders_override_label envMyhostDisconnected rfl rfl

/-- Codepoint-wise three-way comparison of character lists. -/
def codepointCompare : List Char → List Char → Int
  | [], [] => 0
  | [], _ :: _ => -1
  | _ :: _, [] => 1
  | a :: as, b :: bs => if a < b then -1 else if b < a then 1 else codepointCompare as bs

/-- Modelled from the spec: the case- and locale-aware string comparison
localeCompare, instantiated with codepoint order, an admissible collation
that agrees with every collation on the keys of the documented example; the
general ordering theorem quantifies over the comparison instead. -/
def lcCodepoint (s t : String) : Int := codepointCompare s.data t.data

/-- The regex test of matchCurrentRemote for a remote authority (line 461):
the key starts with the remote tier, an underscore, two digits, an
underscore, the derived remote name and an underscore (the name is
interpolated into the regex; metacharacter-free names are assumed). -/
def matchRemoteKey (name : String) (key : String) : Bool :=
  match stripPref "remote_".data key.data with
  | some (d1 :: d2 :: u :: rest) =>
    d1.isDigit && d2.isDigit && u = '_' &&
      (match stripPref (name.data ++ ['_']) rest with
       | some _ => true
       | none => false)
  | _ => false

/-- The regex test of matchCurrentRemote for a virtual workspace (line 463),
with the virtualfs tier and the workspace scheme. -/
def matchVirtualKey (scheme : String) (key : String) : Bool :=
  match stripPref "virtualfs_".data key.data with
  | some (d1 :: d2 :: u :: rest) =>
    d1.isDigit && d2.isDigit && u = '_' &&
      (match stripPref (scheme.data ++ ['_']) rest with
       | some _ => true
       | none => false)
  | _ => false

/-- The sort comparator of showRemoteMenu (lines 476 to 483): when exactly
one of the two groups matches the current remote it goes first; otherwise
the locale comparison of the two keys decides. -/
def groupCompare (lc : String → String → Int) (m : String → Bool)
    (g1 g2 : ActionGroup) : Int :=
  if m g1.1 ≠ m g2.1 then (if m g1.1 then -1 else 1) else lc g1.1 g2.1

/-- The ordering induced by the comparator: nonpositive comparison. -/
def groupLE (lc : String → String → Int) (m : String → Bool)
    (g1 g2 : ActionGroup) : Prop :=
  groupCompare lc m g1 g2 ≤ 0

instance (lc : String → String → Int) (m : String → Bool) :
    DecidableRel (groupLE lc m) := fun g1 g2 =>
  inferInstanceAs (Decidable (groupCompare lc m g1 g2 ≤ 0))

/-- Array sort with a consistent comparator, modelled as the stable
insertion sort by the induced ordering: for a consistent comparator the
ECMAScript specification of sort determines exactly the stable sorted
result. -/
def sortGroups (lc : String → String → Int) (m : String → Bool)
    (gs : List ActionGroup) : List ActionGroup :=
  List.insertionSort (groupLE lc m) gs

theorem groupLE_total (lc : String → String → Int) (m : String → Bool)
    (htot : ∀ s t, lc s t ≤ 0 ∨ lc t s ≤ 0) :
    ∀ g1 g2, groupLE lc m g1 g2 ∨ groupLE lc m g2 g1 := by
  intro g1 g2
  unfold groupLE groupCompare
  by_cases h1 : m g1.1 <;> by_cases h2 : m g2.1 <;> simp [h1, h2]
  · exact htot _ _
  · exact htot _ _

theorem groupLE_trans (lc : String → String → Int) (m : String → Bool)
    (htrans : ∀ s t u, lc s t ≤ 0 → lc t u ≤ 0 → lc s u ≤ 0) :
    ∀ g1 g2 g3, groupLE lc m g1 g2 → groupLE lc m g2 g3 → groupLE lc m g1 g3 := by
  intro g1 g2 g3
  unfold groupLE groupCompare
  by_cases h1 : m g1.1 <;> by_cases h2 : m g2.1 <;> by_cases h3 : m g3.1 <;>
    simp [h1, h2, h3] <;> intro ha hb <;>
    first
      | omega
      | exact htrans _ _ _ ha hb

/-- C8: for every total transitive locale comparison, sorting with the
comparator of showRemoteMenu permutes the groups so that every group whose
key the current-remote matcher accepts precedes every group it rejects,
and any two groups of the same partition are in nondecreasing locale order
of their full keys; at the documented example with active authority ssh the
resulting order is remote_00_ssh_c, remote_01_ssh_a, virtualfs_00_git_b. -/
theorem current_remote_groups_sort_first :
    (∀ (lc : String → String → Int) (m : String → Bool),
      (∀ s t, lc s t ≤ 0 ∨ lc t s ≤ 0) →
      (∀ s t u, lc s t ≤ 0 → lc t u ≤ 0 → lc s u ≤ 0) →
      ∀ gs : List ActionGroup,
        (sortGroups lc m gs).Perm gs ∧
        (sortGroups lc m gs).Pairwise (fun g1 g2 =>
          (m g2.1 = true → m g1.1 = true) ∧
          (m g1.1 = m g2.1 → lc g1.1 g2.1 ≤ 0))) ∧
    sortGroups lcCodepoint (matchRemoteKey "ssh")
        [("remote_01_ssh_a", []), ("virtualfs_00_git_b", []), ("remote_00_ssh_c", [])]
      = [("remote_00_ssh_c", []), ("remote_01_ssh_a", []), ("virtualfs_00_git_b", [])] := by
  constructor
  · intro lc m htot htrans gs
    haveI i1 : IsTotal ActionGroup (groupLE lc m) := ⟨groupLE_total lc m htot⟩
    haveI i2 : IsTrans ActionGroup (groupLE lc m) :=
      ⟨fun a b c => groupLE_trans lc m htrans a b c⟩
    refine ⟨List.perm_insertionSort _ gs, ?_⟩
    have hs := List.sorted_insertionSort (groupLE lc m) gs
    refine List.Pairwise.imp ?_ hs
    intro g1 g2 h
    unfold groupLE groupCompare at h
    by_cases h1 : m g1.1 <;> by_cases h2 : m g2.1 <;> simp [h1, h2] at h ⊢
    · exact h
    · exact h
  · decide

/-- Witness for C8 at a concrete comparison satisfying the hypotheses: the
constant comparison is total and transitive, and the sorted singleton is a
permutation of itself. -/
theorem current_remote_groups_sort_first_witness :
    (sortGroups (fun _ _ => 0) (fun _ => false) [(("k", []) : ActionGroup)]).Perm [("k", [])] :=
  (current_remote_groups_sort_first.1 (fun _ _ => 0) (fun _ => false)
    (fun _ _ => Or.inl (by simp)) (fun _ _ _ _ _ => by simp) [("k", [])]).1

/-- A quick-pick entry produced by showRemoteMenu: a separator with an
optional label, or a selectable item with command id, label, and the
alwaysShow flag set only on the install entry. -/
inductive Entry where
  | separator (label : Option String)
  | item (id : String) (label : String) (alwaysShow : Bool)
deriving DecidableEq, Repr

/-- The inner loop of computeItems over the actions of one group (lines 488
to 508): submenu actions are skipped; at the first plain action of the
group the category of that action is compared against the last emitted
category and a labelled separator is emitted when they differ; every plain
action then emits its item. Returns the emitted entries together with the
updated last category. -/
def emitActionsLoop : Bool → Option String → List RMenuAction → List Entry × Option String
  | _, last, [] => ([], last)
  | hgc, last, .submenuItem _ :: rest => emitActionsLoop hgc last rest
  | hgc, last, .menuItem i t c :: rest =>
    if hgc then
      let r := emitActionsLoop true last rest
      (.item i t false :: r.1, r.2)
    else if c = last then
      let r := emitActionsLoop true last rest
      (.item i t false :: r.1, r.2)
    else
      let r := emitActionsLoop true c rest
      (.separator c :: .item i t false :: r.1, r.2)

/-- The outer loop of computeItems over the sorted groups, threading the
last emitted category across groups. -/
def emitGroups : Option String → List ActionGroup → List Entry
  | _, [] => []
  | last, g :: gs =>
    let r := emitActionsLoop false last g.2
    r.1 ++ emitGroups r.2 gs

/-- The category of the first plain menu action of a group, when there is
one: this is the category the group introduces. -/
def firstPlainCat : List RMenuAction → Option (Option String)
  | [] => none
  | .menuItem _ _ c :: _ => some c
  | .submenuItem _ :: rest => firstPlainCat rest

/-- The items of the plain menu actions of a group, in order. -/
def plainEntries : List RMenuAction → List Entry
  | [] => []
  | .menuItem i t _ :: rest => .item i t false :: plainEntries rest
  | .submenuItem _ :: rest => plainEntries rest

theorem emitActionsLoop_true (acts : List RMenuAction) :
    ∀ last, emitActionsLoop true last acts = (plainEntries acts, last) := by
  induction acts with
  | nil => intro last; rfl
  | cons a rest ih =>
    intro last
    cases a with
    | submenuItem i => simpa [emitActionsLoop, plainEntries] using ih last
    | menuItem i t c => simp [emitActionsLoop, plainEntries, ih last]

/-- C9: a group emits a labelled separator before its first action exactly
when the category of its first plain action differs from the category of
the immediately preceding emitted separator, after which that category
becomes the current one; a group without plain actions emits nothing and
leaves the category unchanged; hence two consecutive groups whose actions
all carry category Docker yield exactly one Docker separator, not two. -/
theorem separator_only_for_new_category :
    (∀ (last : Option String) (acts : List RMenuAction),
      firstPlainCat acts = none → emitActionsLoop false last acts = ([], last)) ∧
    (∀ (last : Option String) (acts : List RMenuAction) (c : Option String),
      firstPlainCat acts = some c →
      emitActionsLoop false last acts
        = ((if c = last then [] else [.separator c]) ++ plainEntries acts, c)) ∧
    emitGroups none
        [("remote_00_docker_a",
          [.menuItem "d1" "D1" (some "Docker"), .menuItem "d2" "D2" (some "Docker")]),
         ("remote_01_docker_b", [.menuItem "d3" "D3" (some "Docker")])]
      = [.separator (some "Docker"), .item "d1" "D1" false, .item "d2" "D2" false,
         .item "d3" "D3" false] ∧
    (emitGroups none
        [("remote_00_docker_a",
          [.menuItem "d1" "D1" (some "Docker"), .menuItem "d2" "D2" (some "Docker")]),
         ("remote_01_docker_b", [.menuItem "d3" "D3" (some "Docker")])]).count
        (Entry.separator (some "Docker")) = 1 := by
  refine ⟨?_, ?_, by decide, by decide⟩
  · intro last acts
    induction acts with
    | nil => intro h; rfl
    | cons a rest ih =>
      cases a with
      | submenuItem i =>
        intro h
        simpa [emitActionsLoop] using ih (by simpa [firstPlainCat] using h)
      | menuItem i t c =>
        intro h
        simp [firstPlainCat] at h
  · intro last acts
    induction acts with
    | nil => intro c h; simp [firstPlainCat] at h
    | cons a rest ih =>
      cases a with
      | submenuItem i =>
        intro c h
        simpa [emitActionsLoop] using ih c (by simpa [firstPlainCat] using h)
      | menuItem i t c0 =>
        intro c h
        have hc : c0 = c := by simpa [firstPlainCat] using h
        subst hc
        by_cases hl : c0 = last
        · subst hl
          simp [emitActionsLoop, emitActionsLoop_true, plainEntries]
        · simp [emitActionsLoop, hl, emitActionsLoop_true, plainEntries]

/-- Witness for C9 at a concrete group: with no previously emitted category,
a group introducing category Docker emits one Docker separator before its
item. -/
theorem separator_only_for_new_category_witness :
    emitActionsLoop false none [RMenuAction.menuItem "x" "X" (some "Docker")]
      = ([Entry.separator (some "Docker"), Entry.item "x" "X" false], some "Docker") := by
  have h := separator_only_for_new_category.2.1 none
    [RMenuAction.menuItem "x" "X" (some "Docker")] (some "Docker") rfl
  simpa [plainEntries] using h

/-- The inputs the fixed entries of showRemoteMenu depend on; remoteName is
modelled from the spec as the derived short name of the authority used in
the matcher pattern (getRemoteName lives outside src), and lc is the locale
comparison. -/
structure MenuEnv where
  remoteAuthority : Option String
  remoteName : String
  virtualWorkspaceLocation : Option (String × String)
  connectionState : Option ConnState
  galleryEnabled : Bool
  lc : String → String → Int

/-- matchCurrentRemote from the source (lines 459 to 466): the remote
pattern when an authority is set, else the virtualfs pattern when a virtual
workspace location is set, else no matcher. -/
def matchCurrentRemote (env : MenuEnv) : Option (String → Bool) :=
  match env.remoteAuthority with
  | some _ => some (matchRemoteKey env.remoteName)
  | none =>
    match env.virtualWorkspaceLocation with
    | some vwl => some (matchVirtualKey vwl.1)
    | none => none

/-- SHOW_CLOSE_REMOTE_COMMAND_ID (line 50): the negation of isWeb, hence
true in this source. -/
def SHOW_CLOSE_REMOTE_COMMAND_ID : Bool := true

/-- The fixed entries pushed after the plain separator in computeItems
(lines 516 to 575): the close entry and, when disconnected, the reload
entry for a remote authority, or the close-workspace entry for a virtual
workspace; always the connect entry; a second separator; the three
diagnostic log entries; and the install entry exactly when neither an
authority nor a virtual workspace is active and the gallery is enabled. -/
def fixedEntries (env : MenuEnv) : List Entry :=
  (if SHOW_CLOSE_REMOTE_COMMAND_ID then
    match env.remoteAuthority with
    | some _ =>
      Entry.item "workbench.action.remote.close" "Close Remote Connection" false ::
        (if env.connectionState = some ConnState.disconnected then
          [Entry.item "workbench.action.reloadWindow" "Reload Window" false]
         else [])
    | none =>
      match env.virtualWorkspaceLocation with
      | some _ => [Entry.item "workbench.action.remote.close" "Close Remote Workspace" false]
      | none => []
   else []) ++
  [Entry.item "workbench.action.remote.connect" "Connect Remote Connection" false,
   Entry.separator none,
   Entry.item "remote.logRemoteAuthority" "Log Remote Authority" false,
   Entry.item "remote.logVirtualWorkspaceLocation" "Log Virtual Workspace Location" false,
   Entry.item "remote.logExtensionGalleryService" "Log Extension Gallery Service" false] ++
  (if env.remoteAuthority.isNone && env.virtualWorkspaceLocation.isNone && env.galleryEnabled
   then [Entry.item "workbench.action.remote.extensions"
          "Install Additional Remote Extensions..." true]
   else [])

/-- The contributed part of the quick pick: the aggregated groups, sorted by
the current-remote comparator when a matcher exists, then emitted with
category separators. -/
def contributedPart (env : MenuEnv) (actionGroups : List ActionGroup) : List Entry :=
  emitGroups none
    (match matchCurrentRemote env with
     | some m => sortGroups env.lc m actionGroups
     | none => actionGroups)

/-- computeItems of showRemoteMenu (lines 468 to 582): the contributed part,
a plain separator whose position is remembered, the fixed entries, and the
final pop of that separator when nothing was appended after it. -/
def computeItems (env : MenuEnv) (actionGroups : List ActionGroup) : List Entry :=
  let before := contributedPart env actionGroups ++ [Entry.separator none]
  let all := before ++ fixedEntries env
  if all.length = before.length then all.dropLast else all

/-- C10: the plain separator appended after the contributed actions is
always followed by at least one fixed entry (the connect and diagnostic
entries are unconditional), so the removal branch for a dangling separator
is never taken and the list handed to the selection UI never ends with that
separator. -/
theorem no_dangling_trailing_separator (env : MenuEnv) (actionGroups : List ActionGroup) :
    fixedEntries env ≠ [] ∧
    computeItems env actionGroups
      = (contributedPart env actionGroups ++ [Entry.separator none]) ++ fixedEntries env := by
  have hlen : 0 < (fixedEntries env).length := by
    unfold fixedEntries
    simp only [List.length_append, List.length_cons, List.length_nil]
    omega
  constructor
  · intro h
    rw [h] at hlen
    simp at hlen
  · show (if ((contributedPart env actionGroups ++ [Entry.separator none]) ++ fixedEntries env).length
            = (contributedPart env actionGroups ++ [Entry.separator none]).length
          then ((contributedPart env actionGroups ++ [Entry.separator none]) ++ fixedEntries env).dropLast
          else (contributedPart env actionGroups ++ [Entry.separator none]) ++ fixedEntries env)
        = (contributedPart env actionGroups ++ [Entry.separator none]) ++ fixedEntries env
    rw [if_neg]
    simp only [List.length_append]
    omega

end RemoteStatusIndicator
